import Mathlib

/-!
Shallow embedding of the portfolio-site activity code:
the derivation functions of the developer-activity client component
(activity level, streaks, month labels, top languages, range handling)
and the two API route handlers (GitHub contribution calendar proxy and
Hackatime statistics proxy), together with proofs of the specified
properties.

JavaScript numbers are modelled as Nat, Int or Rat as appropriate;
ISO date strings are modelled structurally as civil dates; JSON payloads
as an inductive JSON type; the HTTP fetch is modelled as an oracle
argument, and handlers additionally return the number of network calls
they issued.
-/

/-- Civil calendar date modelling a JS Date value at day granularity:
month is 0-based (as returned by getMonth), day is 1-based (getDate). -/
structure CivilDate where
  year : Int
  month : Nat
  day : Nat
deriving DecidableEq, Repr

/-- Days since the civil epoch 1970-01-01 for year y, 1-based month m1 and
day-of-month d; d may lie outside the month (JS Date normalisation applies
the overflow in ofEpochDays). Standard civil-from-days arithmetic. -/
def toEpochDays (y : Int) (m1 : Int) (d : Int) : Int :=
  let y2 : Int := if m1 ≤ 2 then y - 1 else y
  let era : Int := y2.fdiv 400
  let yoe : Int := y2 - era * 400
  let mp : Int := (m1 + 9) % 12
  let doy : Int := (153 * mp + 2).fdiv 5 + d - 1
  let doe : Int := yoe * 365 + yoe.fdiv 4 - yoe.fdiv 100 + doy
  era * 146097 + doe - 719468

/-- Inverse of toEpochDays: the civil date lying z days after 1970-01-01. -/
def ofEpochDays (z : Int) : CivilDate :=
  let z2 : Int := z + 719468
  let era : Int := z2.fdiv 146097
  let doe : Int := z2 - era * 146097
  let yoe : Int := (doe - doe.fdiv 1460 + doe.fdiv 36524 - doe.fdiv 146096).fdiv 365
  let y : Int := yoe + era * 400
  let doy : Int := doe - (365 * yoe + yoe.fdiv 4 - yoe.fdiv 100)
  let mp : Int := (5 * doy + 2).fdiv 153
  let d : Int := doy - (153 * mp + 2).fdiv 5 + 1
  let m1 : Int := mp + (if mp < 10 then 3 else -9)
  let y2 : Int := if m1 ≤ 2 then y + 1 else y
  { year := y2, month := (m1 - 1).toNat, day := d.toNat }

/-- Epoch-day number of a civil date. -/
def CivilDate.toDays (dte : CivilDate) : Int :=
  toEpochDays dte.year ((dte.month : Int) + 1) (dte.day : Int)

/-- JS Date.prototype.getDate: the 1-based day of the month. -/
def CivilDate.getDate (dte : CivilDate) : Int := (dte.day : Int)

/-- JS Date.prototype.setDate with normalisation: day x may be nonpositive
or exceed the month length and rolls over accordingly. -/
def CivilDate.setDate (dte : CivilDate) (x : Int) : CivilDate :=
  ofEpochDays (toEpochDays dte.year ((dte.month : Int) + 1) 1 + (x - 1))

/-- JS Date.prototype.setMonth with normalisation: month m is 0-based and
may be negative or exceed 11 (year rollover); a day-of-month exceeding the
target month length overflows into the following month. -/
def CivilDate.setMonth (dte : CivilDate) (m : Int) : CivilDate :=
  ofEpochDays (toEpochDays (dte.year + m.fdiv 12) (m.emod 12 + 1) 1 + ((dte.day : Int) - 1))

/-- JS Date.prototype.setFullYear keeping month and day-of-month, with a
day-of-month exceeding the target month length overflowing (Feb 29 in a
non-leap target year becomes Mar 1). -/
def CivilDate.setFullYear (dte : CivilDate) (y : Int) : CivilDate :=
  ofEpochDays (toEpochDays y ((dte.month : Int) + 1) 1 + ((dte.day : Int) - 1))

-- --- Client component data model (source: developer activity section) ---

/-- GitHubContributionDay from the component; the ISO date string is
modelled as a CivilDate. -/
structure GitHubContributionDay where
  contributionCount : Nat
  date : CivilDate
  color : String
  weekday : Nat
deriving DecidableEq, Repr

/-- GitHubContributionWeek from the component. -/
structure GitHubContributionWeek where
  contributionDays : List GitHubContributionDay
deriving DecidableEq, Repr

/-- GitHubData from the component. -/
structure GitHubData where
  totalContributions : Nat
  weeks : List GitHubContributionWeek
deriving DecidableEq, Repr

/-- HackatimeLanguage from the component; numbers as rationals. -/
structure HackatimeLanguage where
  name : String
  total_seconds : Rat
  percent : Rat
  text : String
  color : Option String
deriving DecidableEq, Repr

/-- MONTH_LABELS constant from the component. -/
def MONTH_LABELS : List String :=
  ["Jan", "Feb", "Mar", "Apr", "May", "Jun",
   "Jul", "Aug", "Sep", "Oct", "Nov", "Dec"]

/-- RANGE_OPTIONS values from the component (the selectable range keys). -/
def RANGE_OPTIONS : List String :=
  ["last_7_days", "last_30_days", "last_6_months", "last_year"]

/-- getGitHubLevel from the component: quantises a contribution count to a
heatmap level. -/
def getGitHubLevel (count : Nat) : Nat :=
  if count = 0 then 0
  else if count ≤ 3 then 1
  else if count ≤ 6 then 2
  else if count ≤ 9 then 3
  else 4

/-- StreakSummary: the record returned by computeGitHubStreaks. -/
structure StreakSummary where
  currentStreak : Nat
  longestStreak : Nat
deriving DecidableEq, Repr

/-- Loop body of the forward scan of computeGitHubStreaks: the accumulator
is the pair (tempStreak, longestStreak). -/
def streakStep (acc : Nat × Nat) (c : Nat) : Nat × Nat :=
  if 0 < c then (acc.1 + 1, max acc.2 (acc.1 + 1)) else (0, acc.2)

/-- Backward scan of computeGitHubStreaks applied to the reversed count
list: count elements until the first zero (the break in the source loop). -/
def backCount : List Nat → Nat
  | [] => 0
  | c :: rest => if 0 < c then backCount rest + 1 else 0

/-- computeGitHubStreaks from the component: flatten the weeks into the
chronological day sequence, scan forward for the longest streak, scan
backward from the end for the current streak. -/
def computeGitHubStreaks (weeks : List GitHubContributionWeek) : StreakSummary :=
  let allDays := (weeks.map (·.contributionDays)).flatten
  let counts := allDays.map (·.contributionCount)
  let fwd := counts.foldl streakStep (0, 0)
  { currentStreak := backCount counts.reverse, longestStreak := fwd.2 }

/-- Month label entry produced by getMonthLabels. -/
structure MonthLabel where
  label : String
  col : Nat
deriving DecidableEq, Repr

/-- Recursive translation of the forEach loop of getMonthLabels: lastMonth
starts at -1, a week without a first day is skipped (index still advances),
and a label is emitted whenever the month of the first day of the week
differs from lastMonth, which is then updated. -/
def getMonthLabelsGo (lastMonth : Int) (i : Nat) :
    List GitHubContributionWeek → List MonthLabel
  | [] => []
  | w :: rest =>
    match w.contributionDays.head? with
    | none => getMonthLabelsGo lastMonth (i + 1) rest
    | some firstDay =>
      let month := firstDay.date.month
      if (month : Int) ≠ lastMonth then
        { label := MONTH_LABELS.getD month "", col := i } ::
          getMonthLabelsGo (month : Int) (i + 1) rest
      else
        getMonthLabelsGo lastMonth (i + 1) rest

/-- getMonthLabels from the component. -/
def getMonthLabels (weeks : List GitHubContributionWeek) : List MonthLabel :=
  getMonthLabelsGo (-1) 0 weeks

/-- Rendered span of each month label, as computed in the component: the
column of the next label minus the own column, the last label extending to
the total number of week columns. -/
def monthLabelSpans (totalWeeks : Nat) : List MonthLabel → List Nat
  | [] => []
  | [l] => [totalWeeks - l.col]
  | l1 :: l2 :: rest => (l2.col - l1.col) :: monthLabelSpans totalWeeks (l2 :: rest)

/-- topLanguages derivation from the component: drop entries named Other or
with zero duration, keep the first 6 in the incoming order. -/
def topLanguages (languages : List HackatimeLanguage) : List HackatimeLanguage :=
  (languages.filter (fun l => l.name ≠ "Other" && 0 < l.total_seconds)).take 6

/-- maxLangPercent from the component: the percent of the first retained
language, or 1 when nothing is retained. -/
def maxLangPercent (tl : List HackatimeLanguage) : Rat :=
  match tl with
  | [] => 1
  | t :: _ => t.percent

/-- Bar width (in percent of the track) of one language bar, as set in the
component style: percent relative to maxLangPercent, times 100. -/
def barWidth (tl : List HackatimeLanguage) (lang : HackatimeLanguage) : Rat :=
  lang.percent / maxLangPercent tl * 100

-- --- Hackatime route handler (source: app/api/hackatime/route.ts) ---

/-- getDateRange from the Hackatime route: switch on the range key; the
cases last_7_days, last_30_days, last_6_months and last_year shift the
current date with JS Date mutators, and all_time together with the default
branch go 10 years back. The source formats both dates as ISO strings; the
model returns the civil dates themselves as (start_date, end_date). -/
def getDateRange (now : CivilDate) (range : String) : CivilDate × CivilDate :=
  let start :=
    if range = "last_7_days" then now.setDate (now.getDate - 7)
    else if range = "last_30_days" then now.setDate (now.getDate - 30)
    else if range = "last_6_months" then now.setMonth ((now.month : Int) - 6)
    else if range = "last_year" then now.setFullYear (now.year - 1)
    else now.setFullYear (now.year - 10)
  (start, now)

/-- Modelled from the spec wording: the date n days back from d, computed
on the epoch-day line. -/
def daysBack (dte : CivilDate) (n : Int) : CivilDate :=
  ofEpochDays (dte.toDays - n)

/-- Modelled from the spec wording: the date n calendar months back from d,
keeping the day-of-month and normalising an overflowing day into the
following month. The month counter year*12+month is decreased by n. -/
def monthsBack (dte : CivilDate) (n : Int) : CivilDate :=
  let total : Int := dte.year * 12 + (dte.month : Int) - n
  ofEpochDays (toEpochDays (total.fdiv 12) (total.emod 12 + 1) 1 + ((dte.day : Int) - 1))

/-- Modelled from the spec wording: the date n calendar years back from d,
keeping month and day-of-month and normalising an overflowing day. -/
def yearsBack (dte : CivilDate) (n : Int) : CivilDate :=
  ofEpochDays (toEpochDays (dte.year - n) ((dte.month : Int) + 1) 1 + ((dte.day : Int) - 1))

/-- JSON values; numbers are modelled as integers (no number appears in the
claims whose fractional part matters for a payload). -/
inductive JSON where
  | null : JSON
  | bool (b : Bool) : JSON
  | num (n : Int) : JSON
  | str (s : String) : JSON
  | arr (elems : List JSON) : JSON
  | obj (fields : List (String × JSON)) : JSON

/-- JS truthiness of a JSON value: null, false, 0 and the empty string are
falsy; every array and object is truthy. -/
def JSON.truthy : JSON → Bool
  | .null => false
  | .bool b => b
  | .num n => n ≠ 0
  | .str s => s ≠ ""
  | .arr _ => true
  | .obj _ => true

/-- Property access on a JSON value: a field of an object when present,
none otherwise (modelling the JS undefined result). -/
def JSON.lookup : JSON → String → Option JSON
  | .obj fields, key => (fields.find? (fun f => f.1 = key)).map (·.2)
  | _, _ => none

/-- HTTP response produced by a route handler: status and JSON body. -/
structure HttpResponse where
  status : Nat
  body : JSON

/-- JSON error body as built by both handlers. -/
def errorBody (msg : String) : JSON :=
  .obj [("error", .str msg)]

/-- Whether a fetch Response is ok (status in the 2xx range). -/
def statusOk (status : Nat) : Bool :=
  200 ≤ status && status ≤ 299

/-- Line 68-71 of the Hackatime route: responseData.data with a JS falsy
fallback to responseData itself. -/
def extractStats (responseData : JSON) : JSON :=
  match responseData.lookup "data" with
  | some v => if v.truthy then v else responseData
  | none => responseData

/-- Upstream request issued by the Hackatime handler: path user, the query
window and the optional bearer credential. -/
structure HackatimeRequest where
  username : String
  start_date : CivilDate
  end_date : CivilDate
  auth : Option String
deriving DecidableEq, Repr

/-- Range query parameter handling of the Hackatime GET handler:
searchParams.get("range") || "all_time" (an absent parameter and the empty
string are both falsy). -/
def effectiveRange (rangeParam : Option String) : String :=
  match rangeParam with
  | none => "all_time"
  | some s => if s = "" then "all_time" else s

/-- GET handler of the Hackatime route. The network is an oracle mapping
the request to none (transport failure, the fetch rejects) or to a status
and JSON body; the handler returns its response together with the number of
network calls it issued. -/
def hackatimeGET (username apiKey : Option String) (rangeParam : Option String)
    (now : CivilDate) (upstream : HackatimeRequest → Option (Nat × JSON)) :
    HttpResponse × Nat :=
  match username with
  | none => ({ status := 500, body := errorBody "Hackatime username not configured" }, 0)
  | some user =>
    let range := effectiveRange rangeParam
    let window := getDateRange now range
    let req : HackatimeRequest :=
      { username := user, start_date := window.1, end_date := window.2, auth := apiKey }
    match upstream req with
    | none => ({ status := 500, body := errorBody "Failed to fetch Hackatime data" }, 1)
    | some (status, responseData) =>
      if statusOk status then
        ({ status := 200, body := extractStats responseData }, 1)
      else
        ({ status := 500, body := errorBody "Failed to fetch Hackatime data" }, 1)

-- --- GitHub route handler (source: app/api/github/route.ts) ---

/-- Upstream request issued by the GitHub handler: the GraphQL call with
the bearer token (the query and username are fixed constants). -/
structure GitHubRequest where
  token : String
deriving DecidableEq, Repr

/-- Extraction data.data.user.contributionsCollection.contributionCalendar
from the GraphQL response body; a missing intermediate object raises a JS
TypeError caught by the handler, modelled as none. -/
def extractCalendar (data : JSON) : Option JSON := do
  let d ← data.lookup "data"
  let u ← d.lookup "user"
  let cc ← u.lookup "contributionsCollection"
  cc.lookup "contributionCalendar"

/-- GET handler of the GitHub route, with the network as an oracle as for
the Hackatime handler. A structured errors field in the payload (truthy,
as tested by the source) takes the error path. -/
def githubGET (token : Option String)
    (upstream : GitHubRequest → Option (Nat × JSON)) : HttpResponse × Nat :=
  match token with
  | none => ({ status := 500, body := errorBody "GitHub token not configured" }, 0)
  | some t =>
    match upstream { token := t } with
    | none => ({ status := 500, body := errorBody "Failed to fetch GitHub data" }, 1)
    | some (status, data) =>
      if statusOk status then
        if (data.lookup "errors").any (·.truthy) then
          ({ status := 500, body := errorBody "Failed to fetch GitHub data" }, 1)
        else
          match extractCalendar data with
          | some calendar => ({ status := 200, body := calendar }, 1)
          | none => ({ status := 500, body := errorBody "Failed to fetch GitHub data" }, 1)
      else
        ({ status := 500, body := errorBody "Failed to fetch GitHub data" }, 1)

-- --- Component state for the Hackatime fetch cycle ---

/-- Hackatime-related state of the component: active range, data, loading
and error flags, plus the log of the ranges for which a fetch was issued
(its length is the network call count). -/
structure ComponentState where
  activeRange : String
  hackatimeData : Option JSON
  loadingHackatime : Bool
  errorHackatime : Bool
  fetchedRanges : List String

/-- Synchronous start of fetchHackatime in the component: set loading,
clear the error flag, clear the data (source comment: follow the original
pattern), and issue the fetch for the given range. -/
def fetchHackatime (s : ComponentState) (range : String) : ComponentState :=
  { s with
    loadingHackatime := true
    errorHackatime := false
    hackatimeData := none
    fetchedRanges := s.fetchedRanges ++ [range] }

/-- Completion of a Hackatime fetch: a payload loads the data, a failure
sets the error flag; loading ends either way. -/
def resolveHackatime (s : ComponentState) (result : Option JSON) : ComponentState :=
  match result with
  | some d => { s with hackatimeData := some d, loadingHackatime := false }
  | none => { s with errorHackatime := true, loadingHackatime := false }

/-- handleRangeChange from the component, composed with the effect that
watches activeRange: an unchanged range returns early, a changed range
updates activeRange and the effect starts fetchHackatime for it. -/
def handleRangeChange (s : ComponentState) (range : String) : ComponentState :=
  if range = s.activeRange then s
  else fetchHackatime { s with activeRange := range } range

-- --- C2: activity level thresholds ---

/-- C2: getGitHubLevel maps 0 to level 0, counts 1 to 3 to level 1, 4 to 6
to level 2, 7 to 9 to level 3 and 10 or more to level 4; it lands in the
set 0..4 and is monotonically non-decreasing. -/
theorem getGitHubLevel_spec (c d : Nat) (hcd : c ≤ d) :
    (c = 0 → getGitHubLevel c = 0) ∧
    (1 ≤ c → c ≤ 3 → getGitHubLevel c = 1) ∧
    (4 ≤ c → c ≤ 6 → getGitHubLevel c = 2) ∧
    (7 ≤ c → c ≤ 9 → getGitHubLevel c = 3) ∧
    (10 ≤ c → getGitHubLevel c = 4) ∧
    getGitHubLevel c ≤ 4 ∧
    getGitHubLevel c ≤ getGitHubLevel d := by
  unfold getGitHubLevel
  split_ifs <;> omega

theorem getGitHubLevel_spec_witness :
    getGitHubLevel 3 ≤ getGitHubLevel 10 :=
  (getGitHubLevel_spec 3 10 (by decide)).2.2.2.2.2.2

-- --- C5: missing configuration short-circuits both adapters ---

/-- C5: with the required configuration absent (no GitHub token, no
Hackatime username) each handler answers 500 with a JSON error body and
issues zero network calls, whatever the network oracle would answer. -/
theorem missingConfig_no_fetch
    (ghUpstream : GitHubRequest → Option (Nat × JSON))
    (htUpstream : HackatimeRequest → Option (Nat × JSON))
    (apiKey rangeParam : Option String) (now : CivilDate) :
    githubGET none ghUpstream =
      ({ status := 500, body := errorBody "GitHub token not configured" }, 0) ∧
    hackatimeGET none apiKey rangeParam now htUpstream =
      ({ status := 500, body := errorBody "Hackatime username not configured" }, 0) :=
  ⟨rfl, rfl⟩

-- --- C8: selecting the active range is a no-op ---

/-- C8: invoking handleRangeChange with the currently active range leaves
the component state unchanged (in particular the fetch log, so no new
network call), while a different range starts exactly one new fetch for
that range. -/
theorem handleRangeChange_spec :
    (∀ s : ComponentState, handleRangeChange s s.activeRange = s) ∧
    (∀ (s : ComponentState) (r : String), r ≠ s.activeRange →
      (handleRangeChange s r).fetchedRanges = s.fetchedRanges ++ [r]) := by
  constructor
  · intro s
    simp [handleRangeChange]
  · intro s r h
    simp [handleRangeChange, h, fetchHackatime]

theorem handleRangeChange_spec_witness :
    handleRangeChange
        { activeRange := "last_year", hackatimeData := none,
          loadingHackatime := false, errorHackatime := false, fetchedRanges := ["last_year"] }
        "last_year" =
      { activeRange := "last_year", hackatimeData := none,
        loadingHackatime := false, errorHackatime := false, fetchedRanges := ["last_year"] } ∧
    (handleRangeChange
        { activeRange := "last_year", hackatimeData := none,
          loadingHackatime := false, errorHackatime := false, fetchedRanges := ["last_year"] }
        "last_7_days").fetchedRanges = ["last_year", "last_7_days"] :=
  ⟨handleRangeChange_spec.1 _,
   handleRangeChange_spec.2
     { activeRange := "last_year", hackatimeData := none,
       loadingHackatime := false, errorHackatime := false, fetchedRanges := ["last_year"] }
     "last_7_days" (by decide)⟩

-- --- C9: a range change clears data and error before loading ---

/-- C9: at the start of a new fetch cycle the component clears the loaded
Hackatime data (sets it to none), resets the error flag and enters the
Loading state; in particular this holds for the cycle started by a range
change to a different range. -/
theorem fetchHackatime_clears (s : ComponentState) (r : String)
    (h : r ≠ s.activeRange) :
    (fetchHackatime s r).hackatimeData = none ∧
    (fetchHackatime s r).errorHackatime = false ∧
    (fetchHackatime s r).loadingHackatime = true ∧
    (handleRangeChange s r).hackatimeData = none ∧
    (handleRangeChange s r).errorHackatime = false ∧
    (handleRangeChange s r).loadingHackatime = true := by
  refine ⟨rfl, rfl, rfl, ?_, ?_, ?_⟩ <;>
    simp [handleRangeChange, h, fetchHackatime]

theorem fetchHackatime_clears_witness :
    (fetchHackatime
        { activeRange := "last_year", hackatimeData := some (JSON.num 5),
          loadingHackatime := false, errorHackatime := true, fetchedRanges := ["last_year"] }
        "last_30_days").hackatimeData = none ∧
    (fetchHackatime
        { activeRange := "last_year", hackatimeData := some (JSON.num 5),
          loadingHackatime := false, errorHackatime := true, fetchedRanges := ["last_year"] }
        "last_30_days").errorHackatime = false ∧
    (fetchHackatime
        { activeRange := "last_year", hackatimeData := some (JSON.num 5),
          loadingHackatime := false, errorHackatime := true, fetchedRanges := ["last_year"] }
        "last_30_days").loadingHackatime = true ∧
    (handleRangeChange
        { activeRange := "last_year", hackatimeData := some (JSON.num 5),
          loadingHackatime := false, errorHackatime := true, fetchedRanges := ["last_year"] }
        "last_30_days").hackatimeData = none ∧
    (handleRangeChange
        { activeRange := "last_year", hackatimeData := some (JSON.num 5),
          loadingHackatime := false, errorHackatime := true, fetchedRanges := ["last_year"] }
        "last_30_days").errorHackatime = false ∧
    (handleRangeChange
        { activeRange := "last_year", hackatimeData := some (JSON.num 5),
          loadingHackatime := false, errorHackatime := true, fetchedRanges := ["last_year"] }
        "last_30_days").loadingHackatime = true :=
  fetchHackatime_clears
    { activeRange := "last_year", hackatimeData := some (JSON.num 5),
      loadingHackatime := false, errorHackatime := true, fetchedRanges := ["last_year"] }
    "last_30_days" (by decide)

-- --- C7: data sub-object unwrapping in the Hackatime handler ---

/-- C7 counterexample: the source line is responseData.data with a JS falsy
fallback, so a payload whose data field is present but null (a falsy value)
makes the handler return the raw payload and not the data field, although
the field is present. The same holds through the full handler on a 200
upstream response. -/
theorem extractStats_present_counterexample :
    JSON.lookup (JSON.obj [("data", JSON.null)]) "data" = some JSON.null ∧
    extractStats (JSON.obj [("data", JSON.null)]) = JSON.obj [("data", JSON.null)] ∧
    extractStats (JSON.obj [("data", JSON.null)]) ≠ JSON.null ∧
    (hackatimeGET (some "user") none none { year := 2026, month := 9, day := 11 }
        (fun _ => some (200, JSON.obj [("data", JSON.null)]))).1.body =
      JSON.obj [("data", JSON.null)] :=
  ⟨rfl, rfl, fun h => JSON.noConfusion h, rfl⟩

/-- C7 amended: the handler returns the data field of the payload when it
is present and truthy, and the raw payload unchanged when the field is
absent or falsy; a successful upstream response is reshaped exactly by this
rule. -/
theorem extractStats_spec :
    (∀ (p v : JSON), p.lookup "data" = some v → v.truthy = true →
      extractStats p = v) ∧
    (∀ (p v : JSON), p.lookup "data" = some v → v.truthy = false →
      extractStats p = p) ∧
    (∀ p : JSON, p.lookup "data" = none → extractStats p = p) ∧
    (∀ (user : String) (apiKey rangeParam : Option String) (now : CivilDate)
       (status : Nat) (payload : JSON), statusOk status = true →
      (hackatimeGET (some user) apiKey rangeParam now
          (fun _ => some (status, payload))).1 =
        { status := 200, body := extractStats payload }) := by
  refine ⟨?_, ?_, ?_, ?_⟩
  · intro p v hl ht
    unfold extractStats
    rw [hl]
    simp [ht]
  · intro p v hl ht
    unfold extractStats
    rw [hl]
    simp [ht]
  · intro p hl
    unfold extractStats
    rw [hl]
  · intro user apiKey rangeParam now status payload hok
    simp [hackatimeGET, hok]

theorem extractStats_spec_witness :
    extractStats (JSON.obj [("data", JSON.num 7)]) = JSON.num 7 ∧
    (hackatimeGET (some "user") none none { year := 2026, month := 9, day := 11 }
        (fun _ => some (200, JSON.obj [("data", JSON.num 7)]))).1 =
      { status := 200, body := extractStats (JSON.obj [("data", JSON.num 7)]) } :=
  ⟨extractStats_spec.1 _ _ rfl rfl,
   extractStats_spec.2.2.2 "user" none none { year := 2026, month := 9, day := 11 }
     200 (JSON.obj [("data", JSON.num 7)]) rfl⟩

-- --- C6: range window arithmetic ---

/-- Day-of-month linearity of the epoch conversion. -/
theorem toEpochDays_day (y m1 d : Int) :
    toEpochDays y m1 d = toEpochDays y m1 1 + (d - 1) := by
  simp only [toEpochDays]
  ring

/-- Setting the day-of-month to getDate minus k shifts the date k days
back on the epoch line. -/
theorem setDate_sub (dte : CivilDate) (k : Int) :
    dte.setDate (dte.getDate - k) = daysBack dte k := by
  simp only [CivilDate.setDate, daysBack, CivilDate.toDays, CivilDate.getDate]
  congr 1
  rw [toEpochDays_day dte.year ((dte.month : Int) + 1) (dte.day : Int)]
  ring

/-- Setting the month to getMonth minus k goes k calendar months back. -/
theorem setMonth_sub (dte : CivilDate) (k : Int) :
    dte.setMonth ((dte.month : Int) - k) = monthsBack dte k := by
  have hd : (dte.year * 12 + (dte.month : Int) - k).fdiv 12
      = dte.year + ((dte.month : Int) - k).fdiv 12 := by
    rw [Int.fdiv_eq_ediv _ (by norm_num : (0:Int) ≤ 12),
        Int.fdiv_eq_ediv _ (by norm_num : (0:Int) ≤ 12)]
    omega
  have hm : (dte.year * 12 + (dte.month : Int) - k).emod 12
      = ((dte.month : Int) - k).emod 12 := by
    show (dte.year * 12 + (dte.month : Int) - k) % 12 = ((dte.month : Int) - k) % 12
    have hx : dte.year * 12 + (dte.month : Int) - k
        = ((dte.month : Int) - k) + 12 * dte.year := by ring
    rw [hx, Int.add_mul_emod_self_left]
  simp only [CivilDate.setMonth, monthsBack]
  rw [hd, hm]

/-- C6: getDateRange anchors the window end at the current date and maps
the four recognised range keys to windows starting 7 days, 30 days, 6
months and 1 year back; all_time, an absent parameter and every
unrecognised value silently fall back to a window starting 10 years back,
and no value is ever rejected. -/
theorem getDateRange_spec (now : CivilDate) (range : String)
    (hr : range ∉ RANGE_OPTIONS) :
    getDateRange now "last_7_days" = (daysBack now 7, now) ∧
    getDateRange now "last_30_days" = (daysBack now 30, now) ∧
    getDateRange now "last_6_months" = (monthsBack now 6, now) ∧
    getDateRange now "last_year" = (yearsBack now 1, now) ∧
    getDateRange now "all_time" = (yearsBack now 10, now) ∧
    getDateRange now range = (yearsBack now 10, now) ∧
    effectiveRange none = "all_time" ∧
    (∀ s : String, (getDateRange now s).2 = now) := by
  simp only [RANGE_OPTIONS, List.mem_cons, List.not_mem_nil, or_false] at hr
  push_neg at hr
  obtain ⟨h1, h2, h3, h4⟩ := hr
  refine ⟨?_, ?_, ?_, rfl, rfl, ?_, rfl, fun s => rfl⟩
  · have h : getDateRange now "last_7_days" = (now.setDate (now.getDate - 7), now) := rfl
    rw [h, setDate_sub]
  · have h : getDateRange now "last_30_days" = (now.setDate (now.getDate - 30), now) := rfl
    rw [h, setDate_sub]
  · have h : getDateRange now "last_6_months"
        = (now.setMonth ((now.month : Int) - 6), now) := rfl
    rw [h, setMonth_sub]
  · simp only [getDateRange, if_neg h1, if_neg h2, if_neg h3, if_neg h4]
    rfl

theorem getDateRange_spec_witness :
    getDateRange { year := 2026, month := 9, day := 11 } "bogus" =
      (yearsBack { year := 2026, month := 9, day := 11 } 10,
       { year := 2026, month := 9, day := 11 }) :=
  (getDateRange_spec { year := 2026, month := 9, day := 11 } "bogus"
    (by decide)).2.2.2.2.2.1

-- --- C1 and C10: streak computation ---

/-- Modelled from the spec wording: the number of consecutive trailing days
with positive count, counting backward from the sequence end and stopping
at the first zero-count day or the sequence start. -/
def trailingStreakSpec (counts : List Nat) : Nat :=
  (counts.reverse.takeWhile (fun c => decide (0 < c))).length

/-- Chronologically ordered flattened count sequence of the weeks. -/
def flattenCounts (weeks : List GitHubContributionWeek) : List Nat :=
  ((weeks.map (·.contributionDays)).flatten).map (·.contributionCount)

theorem backCount_eq_takeWhile (l : List Nat) :
    backCount l = (l.takeWhile (fun c => decide (0 < c))).length := by
  induction l with
  | nil => rfl
  | cons c rest ih =>
    by_cases h : 0 < c
    · simp [backCount, List.takeWhile_cons, h, ih]
    · simp [backCount, List.takeWhile_cons, h]

theorem streakStep_pos (acc : Nat × Nat) (c : Nat) (h : 0 < c) :
    streakStep acc c = (acc.1 + 1, max acc.2 (acc.1 + 1)) := by
  simp [streakStep, h]

theorem streakStep_zero (acc : Nat × Nat) (c : Nat) (h : ¬ 0 < c) :
    streakStep acc c = (0, acc.2) := by
  simp [streakStep, h]

theorem foldl_streakStep_fst (l : List Nat) :
    (l.foldl streakStep (0, 0)).1 = backCount l.reverse := by
  induction l using List.reverseRecOn with
  | nil => rfl
  | append_singleton l c ih =>
    rw [List.foldl_append, List.reverse_append]
    simp only [List.reverse_cons, List.reverse_nil, List.nil_append,
      List.singleton_append, List.foldl_cons, List.foldl_nil]
    by_cases h : 0 < c
    · rw [streakStep_pos _ _ h]
      simp only [backCount, if_pos h]
      exact congrArg (· + 1) ih
    · rw [streakStep_zero _ _ h]
      simp only [backCount, if_neg h]

theorem foldl_streakStep_snd_le (l : List Nat) (acc : Nat × Nat) :
    acc.2 ≤ (l.foldl streakStep acc).2 := by
  induction l generalizing acc with
  | nil => simp
  | cons c rest ih =>
    rw [List.foldl_cons]
    refine le_trans ?_ (ih (streakStep acc c))
    unfold streakStep
    by_cases h : 0 < c
    · simp [h]
    · simp [h]

theorem foldl_streakStep_fst_le_snd (l : List Nat) (acc : Nat × Nat)
    (h : acc.1 ≤ acc.2) :
    (l.foldl streakStep acc).1 ≤ (l.foldl streakStep acc).2 := by
  induction l generalizing acc with
  | nil => simpa
  | cons c rest ih =>
    rw [List.foldl_cons]
    apply ih
    unfold streakStep
    by_cases hc : 0 < c
    · simp only [hc, if_pos]
      exact le_max_right _ _
    · simp [hc]

theorem foldl_streakStep_fst_all_pos (l : List Nat) (acc : Nat × Nat)
    (h : ∀ c ∈ l, 0 < c) :
    (l.foldl streakStep acc).1 = acc.1 + l.length := by
  induction l generalizing acc with
  | nil => simp
  | cons c rest ih =>
    have hc : 0 < c := h c (by simp)
    rw [List.foldl_cons, ih (streakStep acc c) (fun x hx => h x (by simp [hx]))]
    unfold streakStep
    simp only [hc, if_pos, List.length_cons]
    omega

theorem longest_ge_window (a m b : List Nat) (hm : ∀ c ∈ m, 0 < c) :
    m.length ≤ ((a ++ m ++ b).foldl streakStep (0, 0)).2 := by
  rw [List.foldl_append, List.foldl_append]
  refine le_trans ?_ (foldl_streakStep_snd_le b _)
  have h1 : (a.foldl streakStep (0, 0)).1 ≤ (a.foldl streakStep (0, 0)).2 :=
    foldl_streakStep_fst_le_snd a (0, 0) (le_refl 0)
  have h2 := foldl_streakStep_fst_le_snd m (a.foldl streakStep (0, 0)) h1
  have h3 := foldl_streakStep_fst_all_pos m (a.foldl streakStep (0, 0)) hm
  omega

theorem trailing_decomp (l : List Nat) :
    ∃ a tr : List Nat, l = a ++ tr ∧ (∀ c ∈ tr, 0 < c) ∧
      tr.length = backCount l.reverse := by
  refine ⟨(l.reverse.dropWhile (fun c => decide (0 < c))).reverse,
          (l.reverse.takeWhile (fun c => decide (0 < c))).reverse, ?_, ?_, ?_⟩
  · have h := List.takeWhile_append_dropWhile (fun c => decide (0 < c)) l.reverse
    have h2 := congrArg List.reverse h
    rw [List.reverse_append, List.reverse_reverse] at h2
    exact h2.symm
  · intro c hc
    rw [List.mem_reverse] at hc
    have := List.mem_takeWhile_imp hc
    simpa using this
  · rw [List.length_reverse, backCount_eq_takeWhile]

theorem longest_attained (l : List Nat) :
    ∃ a m b : List Nat, l = a ++ m ++ b ∧ (∀ c ∈ m, 0 < c) ∧
      m.length = (l.foldl streakStep (0, 0)).2 := by
  induction l using List.reverseRecOn with
  | nil => exact ⟨[], [], [], rfl, by simp, rfl⟩
  | append_singleton l c ih =>
    rw [List.foldl_append]
    simp only [List.foldl_cons, List.foldl_nil]
    by_cases hc : 0 < c
    · by_cases hcmp : (l.foldl streakStep (0, 0)).1 + 1 ≤ (l.foldl streakStep (0, 0)).2
      · obtain ⟨a, m, b, hdec, hpos, hlen⟩ := ih
        refine ⟨a, m, b ++ [c], ?_, hpos, ?_⟩
        · rw [hdec]
          simp [List.append_assoc]
        · rw [streakStep_pos _ _ hc, Nat.max_eq_left hcmp]
          exact hlen
      · obtain ⟨a, tr, hdec, hpos, hlen⟩ := trailing_decomp l
        refine ⟨a, tr ++ [c], [], ?_, ?_, ?_⟩
        · rw [hdec]
          simp [List.append_assoc]
        · intro x hx
          rcases List.mem_append.mp hx with h | h
          · exact hpos x h
          · simp only [List.mem_singleton] at h
            exact h ▸ hc
        · rw [streakStep_pos _ _ hc, Nat.max_eq_right (le_of_not_le hcmp)]
          have hfst := foldl_streakStep_fst l
          simp only [List.length_append, List.length_singleton]
          omega
    · obtain ⟨a, m, b, hdec, hpos, hlen⟩ := ih
      refine ⟨a, m, b ++ [c], ?_, hpos, ?_⟩
      · rw [hdec]
        simp [List.append_assoc]
      · rw [streakStep_zero _ _ hc]
        exact hlen

theorem backCount_all_zero (l : List Nat) (h : ∀ c ∈ l, c = 0) :
    backCount l = 0 := by
  cases l with
  | nil => rfl
  | cons c rest => simp [backCount, h c (by simp)]

theorem foldl_streakStep_all_zero (l : List Nat) (h : ∀ c ∈ l, c = 0) :
    l.foldl streakStep (0, 0) = (0, 0) := by
  induction l with
  | nil => rfl
  | cons c rest ih =>
    rw [List.foldl_cons, streakStep_zero _ _ (by simp [h c (by simp)])]
    exact ih (fun x hx => h x (by simp [hx]))

/-- Sample contribution day used in the concrete streak example. -/
def exDay (c : Nat) : GitHubContributionDay :=
  { contributionCount := c, date := { year := 2026, month := 0, day := 1 },
    color := "", weekday := 0 }

/-- C1: on the flattened chronological day sequence, longestStreak is the
maximum length of a contiguous block of days with positive count (every
positive window is bounded by it and some decomposition attains it, the
empty window covering the no-positive-day case), currentStreak counts the
trailing positive days stopping at the first zero or the start, a sequence
of all-zero counts yields (0, 0), and the counts 1,0,2,3,0,0,5 yield
longestStreak 2 and currentStreak 1. -/
theorem computeGitHubStreaks_spec :
    (∀ (weeks : List GitHubContributionWeek) (a m b : List Nat),
       flattenCounts weeks = a ++ m ++ b → (∀ c ∈ m, 0 < c) →
       m.length ≤ (computeGitHubStreaks weeks).longestStreak) ∧
    (∀ weeks : List GitHubContributionWeek,
       ∃ a m b : List Nat, flattenCounts weeks = a ++ m ++ b ∧
         (∀ c ∈ m, 0 < c) ∧
         m.length = (computeGitHubStreaks weeks).longestStreak) ∧
    (∀ weeks : List GitHubContributionWeek,
       (computeGitHubStreaks weeks).currentStreak
         = trailingStreakSpec (flattenCounts weeks)) ∧
    (∀ weeks : List GitHubContributionWeek,
       (∀ c ∈ flattenCounts weeks, c = 0) →
       computeGitHubStreaks weeks = { currentStreak := 0, longestStreak := 0 }) ∧
    computeGitHubStreaks
        [{ contributionDays :=
            [exDay 1, exDay 0, exDay 2, exDay 3, exDay 0, exDay 0, exDay 5] }]
      = { currentStreak := 1, longestStreak := 2 } := by
  refine ⟨?_, ?_, ?_, ?_, by decide⟩
  · intro weeks a m b hdec hpos
    have h : (computeGitHubStreaks weeks).longestStreak
        = ((flattenCounts weeks).foldl streakStep (0, 0)).2 := rfl
    rw [h, hdec]
    exact longest_ge_window a m b hpos
  · intro weeks
    obtain ⟨a, m, b, hdec, hpos, hlen⟩ := longest_attained (flattenCounts weeks)
    exact ⟨a, m, b, hdec, hpos, hlen⟩
  · intro weeks
    show backCount (flattenCounts weeks).reverse = trailingStreakSpec (flattenCounts weeks)
    rw [backCount_eq_takeWhile]
    rfl
  · intro weeks h
    have h1 : backCount (flattenCounts weeks).reverse = 0 :=
      backCount_all_zero _ (fun c hc => h c (List.mem_reverse.mp hc))
    have h2 : (flattenCounts weeks).foldl streakStep (0, 0) = (0, 0) :=
      foldl_streakStep_all_zero _ h
    have h3 : computeGitHubStreaks weeks
        = { currentStreak := backCount (flattenCounts weeks).reverse,
            longestStreak := ((flattenCounts weeks).foldl streakStep (0, 0)).2 } := rfl
    rw [h3, h1, h2]

theorem computeGitHubStreaks_spec_witness :
    (2 : Nat) ≤ (computeGitHubStreaks
        [{ contributionDays :=
            [exDay 1, exDay 0, exDay 2, exDay 3, exDay 0, exDay 0, exDay 5] }]).longestStreak :=
  computeGitHubStreaks_spec.1
    [{ contributionDays :=
        [exDay 1, exDay 0, exDay 2, exDay 3, exDay 0, exDay 0, exDay 5] }]
    [1, 0] [2, 3] [0, 0, 5] (by decide) (by decide)

/-- C10: computeGitHubStreaks returns non-negative values with the current
streak never exceeding the longest streak, since the trailing positive run
is one of the runs the forward scan maximises over. -/
theorem computeGitHubStreaks_current_le_longest (weeks : List GitHubContributionWeek) :
    0 ≤ (computeGitHubStreaks weeks).currentStreak ∧
    0 ≤ (computeGitHubStreaks weeks).longestStreak ∧
    (computeGitHubStreaks weeks).currentStreak
      ≤ (computeGitHubStreaks weeks).longestStreak := by
  refine ⟨Nat.zero_le _, Nat.zero_le _, ?_⟩
  have hcur : (computeGitHubStreaks weeks).currentStreak
      = backCount (flattenCounts weeks).reverse := rfl
  have hlng : (computeGitHubStreaks weeks).longestStreak
      = ((flattenCounts weeks).foldl streakStep (0, 0)).2 := rfl
  rw [hcur, hlng, ← foldl_streakStep_fst]
  exact foldl_streakStep_fst_le_snd _ _ (le_refl 0)

-- --- C3: month label segmentation ---

/-- Month of the first day of a week (0 for a week without days; the claim
only concerns weeks with at least one day). -/
def firstDayMonth (w : GitHubContributionWeek) : Nat :=
  match w.contributionDays.head? with
  | some d => d.date.month
  | none => 0

/-- Modelled from the spec wording: emit a (month, column) marker for the
first week always, and for a later week exactly when the month of its first
day differs from the month of the previously emitted label. -/
def specMonthLabelsGo (prev : Option Nat) (i : Nat) : List Nat → List (Nat × Nat)
  | [] => []
  | m :: rest =>
    match prev with
    | none => (m, i) :: specMonthLabelsGo (some m) (i + 1) rest
    | some p =>
      if m ≠ p then (m, i) :: specMonthLabelsGo (some m) (i + 1) rest
      else specMonthLabelsGo (some p) (i + 1) rest

/-- Modelled from the spec wording: month label markers over the sequence
of first-day months. -/
def specMonthLabels (months : List Nat) : List (Nat × Nat) :=
  specMonthLabelsGo none 0 months

/-- Integer encoding of the emitted-label state: no label yet is the
sentinel -1, an emitted month m is m itself. -/
def encodeLastMonth : Option Nat → Int
  | none => -1
  | some m => (m : Int)

theorem getMonthLabelsGo_eq_spec (weeks : List GitHubContributionWeek)
    (hne : ∀ w ∈ weeks, w.contributionDays ≠ []) (i : Nat) (prev : Option Nat) :
    getMonthLabelsGo (encodeLastMonth prev) i weeks =
      (specMonthLabelsGo prev i (weeks.map firstDayMonth)).map
        (fun p => { label := MONTH_LABELS.getD p.1 "", col := p.2 }) := by
  induction weeks generalizing i prev with
  | nil => rfl
  | cons w rest ih =>
    have hw : w.contributionDays ≠ [] := hne w (by simp)
    obtain ⟨d, t, hd⟩ : ∃ d t, w.contributionDays = d :: t := by
      cases hcd : w.contributionDays with
      | nil => exact absurd hcd hw
      | cons d t => exact ⟨d, t, rfl⟩
    have hrest : ∀ w2 ∈ rest, w2.contributionDays ≠ [] :=
      fun w2 hw2 => hne w2 (by simp [hw2])
    have hfm : firstDayMonth w = d.date.month := by
      simp [firstDayMonth, hd]
    rw [List.map_cons, hfm]
    show getMonthLabelsGo (encodeLastMonth prev) i (w :: rest) = _
    unfold getMonthLabelsGo
    rw [hd]
    simp only [List.head?_cons]
    cases prev with
    | none =>
      have hne1 : (d.date.month : Int) ≠ encodeLastMonth none := by
        simp only [encodeLastMonth]
        intro hcon
        have h0 : (0 : Int) ≤ (d.date.month : Int) := Int.natCast_nonneg _
        omega
      rw [if_pos hne1]
      simp only [specMonthLabelsGo, List.map_cons]
      exact congrArg _ (ih hrest (i + 1) (some d.date.month))
    | some p =>
      by_cases hm : d.date.month = p
      · have heq : ¬ ((d.date.month : Int) ≠ encodeLastMonth (some p)) := by
          simp [encodeLastMonth, hm]
        rw [if_neg heq]
        simp only [specMonthLabelsGo, if_neg (by simp [hm] : ¬ (d.date.month ≠ p))]
        exact ih hrest (i + 1) (some p)
      · have hneq : (d.date.month : Int) ≠ encodeLastMonth (some p) := by
          simp only [encodeLastMonth, Ne, Int.natCast_inj]
          exact hm
        rw [if_pos hneq]
        simp only [specMonthLabelsGo, if_pos hm]
        simp only [List.map_cons]
        exact congrArg _ (ih hrest (i + 1) (some d.date.month))

theorem monthLabelSpans_mid (tw : Nat) (labels : List MonthLabel) :
    ∀ i : Nat, i + 1 < labels.length →
      (monthLabelSpans tw labels).getD i 0 =
        (labels.getD (i + 1) { label := "", col := 0 }).col
          - (labels.getD i { label := "", col := 0 }).col := by
  induction labels with
  | nil =>
    intro i h
    simp at h
  | cons l rest ih =>
    intro i h
    cases rest with
    | nil =>
      simp at h
    | cons l2 rest2 =>
      cases i with
      | zero => simp [monthLabelSpans]
      | succ j =>
        have h2 : j + 1 < (l2 :: rest2).length := by
          simp only [List.length_cons] at h ⊢
          omega
        simp only [monthLabelSpans, List.getD_cons_succ]
        exact ih j h2

theorem monthLabelSpans_last (tw : Nat) (labels : List MonthLabel) :
    labels ≠ [] →
      (monthLabelSpans tw labels).getD (labels.length - 1) 0 =
        tw - (labels.getD (labels.length - 1) { label := "", col := 0 }).col := by
  induction labels with
  | nil => intro h; exact absurd rfl h
  | cons l rest ih =>
    intro _
    cases rest with
    | nil => simp [monthLabelSpans]
    | cons l2 rest2 =>
      have h2 := ih (by simp)
      simp only [List.length_cons, Nat.add_sub_cancel] at h2 ⊢
      simp only [monthLabelSpans, List.getD_cons_succ]
      exact h2

/-- Sample one-day week whose first day lies in month m, used in the
concrete month-label example. -/
def exWeek (m : Nat) : GitHubContributionWeek :=
  { contributionDays :=
      [{ contributionCount := 0, date := { year := 2026, month := m, day := 1 },
         color := "", weekday := 0 }] }

/-- C3: over weeks that all have a first day, getMonthLabels emits exactly
the markers described by the spec (first week always, then exactly on a
month change relative to the previously emitted label), the rendered span
of a label is the column of the next label minus its own column with the
final span extending to the last week, and 5 weeks with first-day months
Jan, Jan, Feb, Feb, Mar give labels at columns 0, 2, 4 with spans 2, 2, 1. -/
theorem getMonthLabels_spec :
    (∀ weeks : List GitHubContributionWeek,
       (∀ w ∈ weeks, w.contributionDays ≠ []) →
       getMonthLabels weeks =
         (specMonthLabels (weeks.map firstDayMonth)).map
           (fun p => { label := MONTH_LABELS.getD p.1 "", col := p.2 })) ∧
    (∀ (tw : Nat) (labels : List MonthLabel) (i : Nat), i + 1 < labels.length →
       (monthLabelSpans tw labels).getD i 0 =
         (labels.getD (i + 1) { label := "", col := 0 }).col
           - (labels.getD i { label := "", col := 0 }).col) ∧
    (∀ (tw : Nat) (labels : List MonthLabel), labels ≠ [] →
       (monthLabelSpans tw labels).getD (labels.length - 1) 0 =
         tw - (labels.getD (labels.length - 1) { label := "", col := 0 }).col) ∧
    getMonthLabels [exWeek 0, exWeek 0, exWeek 1, exWeek 1, exWeek 2] =
      [{ label := "Jan", col := 0 }, { label := "Feb", col := 2 },
       { label := "Mar", col := 4 }] ∧
    monthLabelSpans 5 (getMonthLabels [exWeek 0, exWeek 0, exWeek 1, exWeek 1, exWeek 2]) =
      [2, 2, 1] := by
  refine ⟨?_, monthLabelSpans_mid, monthLabelSpans_last, by decide, by decide⟩
  intro weeks hne
  exact getMonthLabelsGo_eq_spec weeks hne 0 none

theorem getMonthLabels_spec_witness :
    getMonthLabels [exWeek 0, exWeek 0, exWeek 1, exWeek 1, exWeek 2] =
      (specMonthLabels
          ([exWeek 0, exWeek 0, exWeek 1, exWeek 1, exWeek 2].map firstDayMonth)).map
        (fun p => { label := MONTH_LABELS.getD p.1 "", col := p.2 }) :=
  getMonthLabels_spec.1 [exWeek 0, exWeek 0, exWeek 1, exWeek 1, exWeek 2] (by decide)

-- --- C4: top language ranking and bar widths ---

theorem foldl_max_of_le (qs : List Rat) (q : Rat) (h : ∀ x ∈ qs, x ≤ q) :
    qs.foldl max q = q := by
  induction qs generalizing q with
  | nil => rfl
  | cons x t ih =>
    rw [List.foldl_cons, max_eq_left (h x (by simp))]
    exact ih q (fun y hy => h y (by simp [hy]))

theorem max?_head_of_le (q : Rat) (qs : List Rat) (h : ∀ x ∈ qs, x ≤ q) :
    (q :: qs).max? = some q := by
  have hdef : (q :: qs).max? = some (qs.foldl max q) := rfl
  rw [hdef, foldl_max_of_le qs q h]

/-- Sample language entry used in the concrete top-language example. -/
def exLang (n : String) (s : Rat) (p : Rat) : HackatimeLanguage :=
  { name := n, total_seconds := s, percent := p, text := "", color := none }

/-- Modelled from the spec wording: walk the language list in order, keep
entries not named Other and with positive duration, and stop once 6 have
been kept. Fusing the removal and the cutoff into one traversal pins down
that the retained set is exactly the first 6 qualifying entries from the
front of the incoming order. -/
def specTopLanguagesGo : Nat → List HackatimeLanguage → List HackatimeLanguage
  | _, [] => []
  | 0, _ => []
  | k + 1, l :: rest =>
    if l.name ≠ "Other" ∧ 0 < l.total_seconds then
      l :: specTopLanguagesGo k rest
    else
      specTopLanguagesGo (k + 1) rest

/-- Modelled from the spec wording: the first 6 entries, in the incoming
order, after removing entries named Other or with zero duration. -/
def specTopLanguages (langs : List HackatimeLanguage) : List HackatimeLanguage :=
  specTopLanguagesGo 6 langs

theorem filter_take_eq_specTop (k : Nat) (l : List HackatimeLanguage) :
    (l.filter (fun x => x.name ≠ "Other" && 0 < x.total_seconds)).take k
      = specTopLanguagesGo k l := by
  induction l generalizing k with
  | nil => cases k <;> rfl
  | cons x rest ih =>
    simp only [ne_eq, decide_not] at ih
    by_cases hx : x.name ≠ "Other" ∧ 0 < x.total_seconds
    · cases k with
      | zero => rfl
      | succ j =>
        simp [List.filter_cons, hx.1, hx.2, specTopLanguagesGo, hx]
        exact ih j
    · cases k with
      | zero => rfl
      | succ j =>
        by_cases hA : x.name ≠ "Other"
        · have hB : ¬ (0 < x.total_seconds) := fun hb2 => hx ⟨hA, hb2⟩
          simp [List.filter_cons, hA, hB, specTopLanguagesGo, hx]
          exact ih (j + 1)
        · simp [List.filter_cons, hA, specTopLanguagesGo, hx]
          exact ih (j + 1)

/-- C4: topLanguages equals, for every input, the first 6 entries in the
incoming order after removing entries named Other or with zero duration
(stated against an independently written single-traversal version of that
description); consequently it is an order-preserving sublist of at most 6
entries all passing the filter. On a list pre-sorted by percent descending
the percent of the first retained entry is the maximum percent of the
retained set, every bar width is the entry percent over that maximum times
100, and the top bar is full-width whenever that maximum is nonzero. The
sample list Other 10, Go 50, Rust 30, TS 20 retains Go, Rust, TS with bar
widths 100, 60, 40, and a list with 7 qualifying entries retains exactly
the first 6 of them. -/
theorem topLanguages_spec :
    (∀ langs : List HackatimeLanguage,
       topLanguages langs = specTopLanguages langs) ∧
    (∀ langs : List HackatimeLanguage,
       (topLanguages langs).Sublist langs ∧
       (topLanguages langs).length ≤ 6 ∧
       (∀ l ∈ topLanguages langs, l.name ≠ "Other" ∧ 0 < l.total_seconds)) ∧
    (∀ langs : List HackatimeLanguage,
       List.Pairwise (fun a b => b.percent ≤ a.percent) langs →
       ∀ (l0 : HackatimeLanguage) (tl0 : List HackatimeLanguage),
         topLanguages langs = l0 :: tl0 →
         ((l0 :: tl0).map (·.percent)).max? = some l0.percent ∧
         (∀ l ∈ l0 :: tl0,
           barWidth (topLanguages langs) l = l.percent / l0.percent * 100) ∧
         (l0.percent ≠ 0 → barWidth (topLanguages langs) l0 = 100)) ∧
    topLanguages
        [exLang "Other" 100 10, exLang "Go" 500 50, exLang "Rust" 300 30,
         exLang "TS" 200 20] =
      [exLang "Go" 500 50, exLang "Rust" 300 30, exLang "TS" 200 20] ∧
    (topLanguages
        [exLang "Other" 100 10, exLang "Go" 500 50, exLang "Rust" 300 30,
         exLang "TS" 200 20]).map
      (barWidth (topLanguages
        [exLang "Other" 100 10, exLang "Go" 500 50, exLang "Rust" 300 30,
         exLang "TS" 200 20])) = [100, 60, 40] ∧
    topLanguages
        [exLang "A" 10 70, exLang "B" 10 60, exLang "Other" 10 55,
         exLang "C" 10 50, exLang "D" 10 40, exLang "E" 10 30,
         exLang "F" 10 20, exLang "G" 10 10] =
      [exLang "A" 10 70, exLang "B" 10 60, exLang "C" 10 50,
       exLang "D" 10 40, exLang "E" 10 30, exLang "F" 10 20] := by
  have htl : topLanguages
      [exLang "Other" 100 10, exLang "Go" 500 50, exLang "Rust" 300 30,
       exLang "TS" 200 20] =
      [exLang "Go" 500 50, exLang "Rust" 300 30, exLang "TS" 200 20] := by decide
  refine ⟨fun langs => filter_take_eq_specTop 6 langs, ?_, ?_, htl, ?_, by decide⟩
  case refine_3 =>
    rw [htl]
    norm_num [barWidth, maxLangPercent, exLang]
  · intro langs
    refine ⟨(List.take_sublist _ _).trans (List.filter_sublist _),
            List.length_take_le _ _, ?_⟩
    intro l hl
    have hmem : l ∈ langs.filter (fun l => l.name ≠ "Other" && 0 < l.total_seconds) :=
      List.mem_of_mem_take hl
    have h2 := List.of_mem_filter hmem
    simpa using h2
  · intro langs hs l0 tl0 htl
    have hsub : (topLanguages langs).Sublist langs :=
      (List.take_sublist _ _).trans (List.filter_sublist _)
    have hp := List.Pairwise.sublist hsub hs
    rw [htl, List.pairwise_cons] at hp
    refine ⟨?_, ?_, ?_⟩
    · rw [List.map_cons]
      refine max?_head_of_le _ _ ?_
      intro x hx
      obtain ⟨b, hb, hbx⟩ := List.mem_map.mp hx
      exact hbx ▸ hp.1 b hb
    · intro l _
      rw [htl]
      rfl
    · intro hnz
      rw [htl]
      show l0.percent / l0.percent * 100 = 100
      rw [div_self hnz, one_mul]

theorem topLanguages_spec_witness :
    ((topLanguages [exLang "Go" 500 50, exLang "Rust" 300 30, exLang "TS" 200 20,
        exLang "Other" 100 10]).map (·.percent)).max? = some 50 :=
  (topLanguages_spec.2.2.1
    [exLang "Go" 500 50, exLang "Rust" 300 30, exLang "TS" 200 20,
     exLang "Other" 100 10]
    (by decide)
    (exLang "Go" 500 50) [exLang "Rust" 300 30, exLang "TS" 200 20]
    (by decide)).1
